import Mathlib

/-!
Verification of the Gregory-method ECS estimation pipeline implemented in the
notebook `demos/Lecture07_BigData/01_calculate_ECS_Gregory_method.ipynb`.

The notebook computes, for each CMIP6 model having both a `piControl` and an
`abrupt-4xCO2` run, area-weighted global-mean series of near-surface air
temperature and of the net top-of-atmosphere radiative flux, differences them
against a windowed control-run mean, fits a degree-1 least-squares line to the
(temperature anomaly, imbalance anomaly) pairs over a year window, and derives
ECS as the half x-intercept `b / (-a) / 2` of the fit.

The development below is a shallow embedding of that pipeline over exact
rationals (`ℚ`): list series for the annual-mean time series, `Fin`-indexed
functions for gridded fields, association lists for the Python dictionaries,
and explicit `Except` results where the Python code can raise an uncaught
exception (`KeyError` on a dictionary lookup, `ValueError` from
`xarray.Dataset.rename`).
-/

/-- Python slice `xs[y0:y1]` for `0 ≤ y0 ≤ y1` (out-of-range bounds truncate
silently, as in Python / `xarray.DataArray.isel` with a `slice`). This models
`series.isel(year=slice(y0, y1))` from the notebook. -/
def pySlice {α : Type} (y0 y1 : ℕ) (xs : List α) : List α := (xs.take y1).drop y0

/-- Arithmetic mean of a list; models `DataArray.mean(dim='year')` on an annual
series. The notebook never applies it to an empty window. -/
def listMean (xs : List ℚ) : ℚ := xs.sum / (xs.length : ℚ)

/-- Slope of the degree-1 ordinary least-squares fit of `y` against `x`; the
closed-form normal-equation solution of the problem solved by
`np.polyfit(x, y, 1)` (the library call made at the notebook's fit step).
For non-constant `x` this is the unique least-squares minimizer. -/
def polyfitSlope (x y : List ℚ) : ℚ :=
  ((x.length : ℚ) * (List.zipWith (fun p q => p * q) x y).sum - x.sum * y.sum) /
    ((x.length : ℚ) * (x.map (fun v => v * v)).sum - x.sum * x.sum)

/-- Intercept of the degree-1 ordinary least-squares fit of `y` against `x`. -/
def polyfitIntercept (x y : List ℚ) : ℚ :=
  (y.sum - polyfitSlope x y * x.sum) / (x.length : ℚ)

/-- Degree-1 least-squares fit `(slope, intercept)`, modelling
`a, b = np.polyfit(x_data, y_data, 1)`. -/
def polyfit1 (x y : List ℚ) : ℚ × ℚ := (polyfitSlope x y, polyfitIntercept x y)

/-- ECS derivation from a Gregory fit: `b/(-a) / 2.0` as in
`results['ECS'][name] = b/(-a) / 2.0`. -/
def gregoryECS (a b : ℚ) : ℚ := b / (-a) / 2

/-- The fit-plus-derivation step of the notebook: slice both anomaly series to
the window `[y0, y1)`, run the degree-1 fit, and derive ECS. -/
def fitWindowECS (y0 y1 : ℕ) (x y : List ℚ) : ℚ :=
  gregoryECS (polyfit1 (pySlice y0 y1 x) (pySlice y0 y1 y)).1
    (polyfit1 (pySlice y0 y1 x) (pySlice y0 y1 y)).2

/-- The window constant of the notebook source (`gregory_limits = [0,150]`). -/
def gregory_limits : List ℕ := [0, 150]

/-- Scaled variance of a list: `n·Σx² − (Σx)²`, the denominator of the
least-squares slope. -/
def Vq (x : List ℚ) : ℚ :=
  (x.length : ℚ) * (x.map (fun v => v * v)).sum - x.sum * x.sum

lemma sum_map_sub_sq (a : ℚ) (t : List ℚ) :
    (t.map (fun v => (a - v) * (a - v))).sum
      = (t.length : ℚ) * (a * a) - 2 * a * t.sum + (t.map (fun v => v * v)).sum := by
  induction t with
  | nil => simp
  | cons b t ih =>
    simp only [List.map_cons, List.sum_cons, List.length_cons, ih]
    push_cast
    ring

lemma Vq_cons (a : ℚ) (t : List ℚ) :
    Vq (a :: t) = Vq t + (t.map (fun v => (a - v) * (a - v))).sum := by
  simp only [Vq, List.map_cons, List.sum_cons, List.length_cons, sum_map_sub_sq]
  push_cast
  ring

lemma sum_sq_nonneg (a : ℚ) (t : List ℚ) :
    0 ≤ (t.map (fun v => (a - v) * (a - v))).sum := by
  refine List.sum_nonneg ?_
  intro z hz
  obtain ⟨w, _, hw⟩ := List.mem_map.mp hz
  exact hw ▸ mul_self_nonneg _

lemma Vq_nonneg (x : List ℚ) : 0 ≤ Vq x := by
  induction x with
  | nil => simp [Vq]
  | cons a t ih =>
    rw [Vq_cons]
    have := sum_sq_nonneg a t
    linarith

lemma Vq_pos {x : List ℚ} {u v : ℚ} (hu : u ∈ x) (hv : v ∈ x) (huv : u ≠ v) :
    0 < Vq x := by
  induction x with
  | nil => cases hu
  | cons a t ih =>
    rw [Vq_cons]
    rcases List.mem_cons.mp hu with hu1 | hu2
    · rcases List.mem_cons.mp hv with hv1 | hv2
      · exact absurd (hu1.trans hv1.symm) huv
      · have hne : a - v ≠ 0 := sub_ne_zero.mpr (hu1 ▸ huv)
        have hterm : 0 < (a - v) * (a - v) := mul_self_pos.mpr hne
        have hle : (a - v) * (a - v) ≤ (t.map (fun w => (a - w) * (a - w))).sum := by
          refine List.single_le_sum ?_ _ (List.mem_map_of_mem _ hv2)
          intro z hz
          obtain ⟨w, _, hw⟩ := List.mem_map.mp hz
          exact hw ▸ mul_self_nonneg _
        have := Vq_nonneg t
        linarith
    · rcases List.mem_cons.mp hv with hv1 | hv2
      · have hne : a - u ≠ 0 := sub_ne_zero.mpr (hv1 ▸ huv.symm)
        have hterm : 0 < (a - u) * (a - u) := mul_self_pos.mpr hne
        have hle : (a - u) * (a - u) ≤ (t.map (fun w => (a - w) * (a - w))).sum := by
          refine List.single_le_sum ?_ _ (List.mem_map_of_mem _ hu2)
          intro z hz
          obtain ⟨w, _, hw⟩ := List.mem_map.mp hz
          exact hw ▸ mul_self_nonneg _
        have := Vq_nonneg t
        linarith
      · have := ih hu2 hv2
        have := sum_sq_nonneg a t
        linarith

lemma sum_map_affine (x : List ℚ) (c d : ℚ) :
    (x.map (fun v => c * v + d)).sum = c * x.sum + (x.length : ℚ) * d := by
  induction x with
  | nil => simp
  | cons a t ih =>
    simp only [List.map_cons, List.sum_cons, List.length_cons, ih]
    push_cast
    ring

lemma sum_zip_affine (x : List ℚ) (c d : ℚ) :
    (List.zipWith (fun p q => p * q) x (x.map (fun v => c * v + d))).sum
      = c * (x.map (fun v => v * v)).sum + d * x.sum := by
  induction x with
  | nil => simp
  | cons a t ih =>
    simp only [List.map_cons, List.zipWith_cons_cons, List.sum_cons, ih]
    ring

/-- On data that is exactly affine in `x`, the least-squares fit recovers the
true slope and intercept, provided `x` is not constant. -/
lemma polyfit1_affine {x : List ℚ} {u v : ℚ} (c d : ℚ)
    (hu : u ∈ x) (hv : v ∈ x) (huv : u ≠ v) :
    polyfit1 x (x.map (fun t => c * t + d)) = (c, d) := by
  have hV : 0 < Vq x := Vq_pos hu hv huv
  have hd : (x.length : ℚ) * (x.map (fun w => w * w)).sum - x.sum * x.sum ≠ 0 := by
    have : Vq x ≠ 0 := ne_of_gt hV
    simpa [Vq] using this
  have hn : ((x.length : ℚ)) ≠ 0 := by
    have hpos : 0 < x.length := List.length_pos.mpr (List.ne_nil_of_mem hu)
    exact_mod_cast Nat.pos_iff_ne_zero.mp hpos
  have hslope : polyfitSlope x (x.map (fun t => c * t + d)) = c := by
    unfold polyfitSlope
    rw [sum_zip_affine, sum_map_affine]
    have hnum : (x.length : ℚ) * (c * (x.map (fun w => w * w)).sum + d * x.sum) -
        x.sum * (c * x.sum + (x.length : ℚ) * d)
        = c * ((x.length : ℚ) * (x.map (fun w => w * w)).sum - x.sum * x.sum) := by
      ring
    rw [hnum, mul_div_cancel_right₀ _ hd]
  have hint : polyfitIntercept x (x.map (fun t => c * t + d)) = d := by
    unfold polyfitIntercept
    rw [hslope, sum_map_affine]
    have : c * x.sum + (x.length : ℚ) * d - c * x.sum = (x.length : ℚ) * d := by ring
    rw [this, mul_comm, mul_div_assoc, div_self hn, mul_one]
  simp [polyfit1, hslope, hint]

lemma pySlice_map {α β : Type} (y0 y1 : ℕ) (f : α → β) (l : List α) :
    pySlice y0 y1 (l.map f) = (pySlice y0 y1 l).map f := by
  simp [pySlice, List.map_take, List.map_drop]

/-- Input series for one model in the per-model loop: the annual-mean GMST and
imbalance series of its control and quadrupling runs (the entries the loop
reads from `ctrl_gmst_dict`, `ctrl_imbalance_dict`, `abrupt_gmst_dict`,
`abrupt_imbalance_dict` after `groupby('time.year').mean`). -/
structure ModelData where
  ctrl_gmst : List ℚ
  ctrl_imbalance : List ℚ
  abrupt_gmst : List ℚ
  abrupt_imbalance : List ℚ

/-- Per-model output record (`results[...][name]` entries for one model):
annual anomaly series and the optional ECS value. -/
structure ModelResult where
  abrupt_gmst : List ℚ
  abrupt_imbalance : List ℚ
  ECS : Option ℚ

/-- Baseline differencing of the loop body: subtract from each point of the
quadrupling-run series the control-run mean over the window index range,
`abrupt.groupby(year).mean() - ctrl.isel(year=slice(g0, g1)).mean(dim='year')`. -/
def anomaly (g0 g1 : ℕ) (raw ctrl : List ℚ) : List ℚ :=
  raw.map (fun s => s - listMean (pySlice g0 g1 ctrl))

/-- Body of the per-model loop of the notebook's batch cell, with the window
`[g0, g1)` in place of the source's fixed `gregory_limits`: compute both
anomaly series, and, when the imbalance anomaly series has at least `g1`
points (`results['abrupt_imbalance'][name].size >= gregory_limits[1]`),
fit the window and derive ECS. -/
def processModel (g0 g1 : ℕ) (d : ModelData) : ModelResult where
  abrupt_gmst := anomaly g0 g1 d.abrupt_gmst d.ctrl_gmst
  abrupt_imbalance := anomaly g0 g1 d.abrupt_imbalance d.ctrl_imbalance
  ECS :=
    if g1 ≤ (anomaly g0 g1 d.abrupt_imbalance d.ctrl_imbalance).length then
      some (fitWindowECS g0 g1 (anomaly g0 g1 d.abrupt_gmst d.ctrl_gmst)
        (anomaly g0 g1 d.abrupt_imbalance d.ctrl_imbalance))
    else none

/-- C3: for every window `[y0, y1)` and anomaly series `X`, `Y` of length at
least `y1` with `Y(t) = c·X(t) + d` exactly at every index and `X` non-constant
over the window, the degree-1 least-squares fit over exactly the slices
`X[y0:y1]` and `Y[y0:y1]` recovers slope `c` and intercept `d`, and the derived
ECS equals `d / (−c) / 2`. -/
theorem windowed_fit_recovers_exact_linear (y0 y1 : ℕ) (c d : ℚ) (X Y : List ℚ)
    (hy1 : y1 ≤ X.length)
    (hlin : ∀ t : ℕ, Y[t]? = (X[t]?).map (fun s => c * s + d))
    (u v : ℚ) (hu : u ∈ pySlice y0 y1 X) (hv : v ∈ pySlice y0 y1 X) (huv : u ≠ v) :
    polyfit1 (pySlice y0 y1 X) (pySlice y0 y1 Y) = (c, d) ∧
      fitWindowECS y0 y1 X Y = d / (-c) / 2 := by
  have hY : Y = X.map (fun s => c * s + d) := by
    refine List.ext_getElem? ?_
    intro n
    rw [hlin n, List.getElem?_map]
  subst hY
  rw [pySlice_map] at *
  have hfit := polyfit1_affine c d hu hv huv
  refine ⟨hfit, ?_⟩
  rw [fitWindowECS, pySlice_map, hfit]
  rfl

/-- Witness for C3 at the concrete input `X = [1, 2]`, `Y = [6, 4]`
(`c = −2`, `d = 8`, window `[0, 2)`). -/
theorem windowed_fit_recovers_exact_linear_witness :
    polyfit1 (pySlice 0 2 [(1 : ℚ), 2]) (pySlice 0 2 [(6 : ℚ), 4]) = (-2, 8) ∧
      fitWindowECS 0 2 [(1 : ℚ), 2] [(6 : ℚ), 4] = 8 / (-(-2)) / 2 := by
  refine windowed_fit_recovers_exact_linear 0 2 (-2) 8 [(1 : ℚ), 2] [(6 : ℚ), 4]
    (by norm_num) ?_ 1 2 (by norm_num [pySlice]) (by norm_num [pySlice]) (by norm_num)
  intro t
  match t with
  | 0 => norm_num
  | 1 => norm_num
  | (n + 2) => rfl

/-- C4: in the per-model loop, baseline differencing subtracts from every time
step of the quadrupling-run series the single scalar mean of the control run
over the window index range `[g0, g1)` (not a time-matched subtraction), and
the temperature and imbalance anomalies use the same window indices for their
respective baselines. -/
theorem baseline_differencing_scalar_window (g0 g1 : ℕ) (d : ModelData) (t : ℕ) :
    (processModel g0 g1 d).abrupt_gmst[t]?
        = (d.abrupt_gmst[t]?).map (fun s => s - listMean (pySlice g0 g1 d.ctrl_gmst)) ∧
      (processModel g0 g1 d).abrupt_imbalance[t]?
        = (d.abrupt_imbalance[t]?).map
            (fun s => s - listMean (pySlice g0 g1 d.ctrl_imbalance)) := by
  constructor <;> simp [processModel, anomaly, List.getElem?_map]

/-- Synthetic control GMST series of the end-to-end scenario:
600 constant annual values of temperature 0. -/
def synCtrlGmst : List ℚ := List.replicate 600 0

/-- Synthetic control imbalance series: 600 constant annual values of 5.0. -/
def synCtrlImbalance : List ℚ := List.replicate 600 5

/-- Synthetic abrupt-run GMST series: 150 annual points rising linearly from 0
to 4.0. -/
def synAbruptGmst : List ℚ := (List.range 150).map (fun t : ℕ => 4 * (t : ℚ) / 149)

/-- Synthetic abrupt-run imbalance series: 150 annual points falling linearly
from 8.0 to 0.0; pointwise it satisfies `Y = 8 − 2·X` against `synAbruptGmst`. -/
def synAbruptImbalance : List ℚ :=
  (List.range 150).map (fun t : ℕ => 8 - 8 * (t : ℚ) / 149)

/-- The end-to-end pipeline run of the scenario: fit window `[100, 150)`. -/
def synResult : ModelResult :=
  processModel 100 150 ⟨synCtrlGmst, synCtrlImbalance, synAbruptGmst, synAbruptImbalance⟩

lemma listMean_replicate (n : ℕ) (c : ℚ) (hn : n ≠ 0) :
    listMean (List.replicate n c) = c := by
  have hcast : ((n : ℚ)) ≠ 0 := Nat.cast_ne_zero.mpr hn
  simp only [listMean, List.sum_replicate, List.length_replicate, nsmul_eq_mul]
  exact mul_div_cancel_left₀ c hcast

lemma pySlice_replicate (y0 y1 m : ℕ) (c : ℚ) :
    pySlice y0 y1 (List.replicate m c) = List.replicate (min y1 m - y0) c := by
  simp [pySlice, List.take_replicate, List.drop_replicate]

lemma syn_baseline_gmst : listMean (pySlice 100 150 synCtrlGmst) = 0 := by
  rw [synCtrlGmst, pySlice_replicate]
  norm_num
  exact listMean_replicate 50 0 (by norm_num)

lemma syn_baseline_imbalance : listMean (pySlice 100 150 synCtrlImbalance) = 5 := by
  rw [synCtrlImbalance, pySlice_replicate]
  norm_num
  exact listMean_replicate 50 5 (by norm_num)

lemma syn_window_mem : (100 : ℕ) ∈ pySlice 100 150 (List.range 150) ∧
    (101 : ℕ) ∈ pySlice 100 150 (List.range 150) := by
  constructor <;> decide

/-- The raw synthetic series are exactly affine: imbalance = −2·gmst + 8. -/
lemma syn_raw_affine :
    synAbruptImbalance = synAbruptGmst.map (fun s => -2 * s + 8) := by
  rw [synAbruptGmst, synAbruptImbalance, List.map_map]
  have hfun : (fun t : ℕ => (8 : ℚ) - 8 * (t : ℚ) / 149)
      = ((fun s : ℚ => -2 * s + 8) ∘ fun t : ℕ => 4 * (t : ℚ) / 149) := by
    funext t
    show (8 : ℚ) - 8 * (t : ℚ) / 149 = -2 * (4 * (t : ℚ) / 149) + 8
    ring
  rw [hfun]

/-- The windowed anomaly series are exactly affine: imbalance anomaly
= −2·gmst anomaly + 3 (the control baseline 5.0 lowers the intercept). -/
lemma syn_anomaly_affine :
    anomaly 100 150 synAbruptImbalance synCtrlImbalance
      = (anomaly 100 150 synAbruptGmst synCtrlGmst).map (fun s => -2 * s + 3) := by
  rw [anomaly, anomaly, syn_baseline_gmst, syn_baseline_imbalance,
    synAbruptGmst, synAbruptImbalance, List.map_map, List.map_map, List.map_map]
  have hfun : ((fun s : ℚ => s - 5) ∘ fun t : ℕ => (8 : ℚ) - 8 * (t : ℚ) / 149)
      = (((fun s : ℚ => -2 * s + 3) ∘ fun s : ℚ => s - 0) ∘
          fun t : ℕ => 4 * (t : ℚ) / 149) := by
    funext t
    show (8 : ℚ) - 8 * (t : ℚ) / 149 - 5 = -2 * (4 * (t : ℚ) / 149 - 0) + 3
    ring
  rw [hfun]

lemma syn_fit :
    polyfit1 (pySlice 100 150 (anomaly 100 150 synAbruptGmst synCtrlGmst))
        (pySlice 100 150 (anomaly 100 150 synAbruptImbalance synCtrlImbalance))
      = (-2, 3) := by
  rw [syn_anomaly_affine, pySlice_map]
  have hx : anomaly 100 150 synAbruptGmst synCtrlGmst
      = (List.range 150).map (fun t : ℕ => 4 * (t : ℚ) / 149 - 0) := by
    rw [anomaly, syn_baseline_gmst, synAbruptGmst, List.map_map]
    rfl
  have h100 : (4 * ((100 : ℕ) : ℚ) / 149 - 0)
      ∈ pySlice 100 150 (anomaly 100 150 synAbruptGmst synCtrlGmst) := by
    rw [hx, pySlice_map]
    exact List.mem_map_of_mem _ syn_window_mem.1
  have h101 : (4 * ((101 : ℕ) : ℚ) / 149 - 0)
      ∈ pySlice 100 150 (anomaly 100 150 synAbruptGmst synCtrlGmst) := by
    rw [hx, pySlice_map]
    exact List.mem_map_of_mem _ syn_window_mem.2
  refine polyfit1_affine (-2) 3 h100 h101 ?_
  push_cast
  norm_num

lemma syn_ecs : synResult.ECS = some (3 / 4) := by
  have hlen : (anomaly 100 150 synAbruptImbalance synCtrlImbalance).length = 150 := by
    simp [anomaly, synAbruptImbalance]
  rw [synResult, processModel]
  simp only [hlen]
  rw [if_pos (by norm_num)]
  rw [fitWindowECS, syn_fit]
  norm_num [gregoryECS]

/-- C1 counterexample: running the pipeline with fit window `[100, 150)` on the
stated synthetic control run (600 years, T = 0, imbalance = 5.0) and abrupt run
(150 years, GMST 0 → 4.0, imbalance 8.0 → 0.0) yields ECS = 0.75, not the
claimed 2.0: baseline differencing subtracts the control imbalance mean 5.0,
so the fitted intercept over the anomalies is 3.0, not 8.0. -/
theorem synthetic_pipeline_ecs_ne_two :
    synResult.ECS = some (3 / 4) ∧ ((3 : ℚ) / 4) ≠ 2 :=
  ⟨syn_ecs, by norm_num⟩

/-- C1 amended: on the stated synthetic inputs the raw series are indeed
related by slope −2.0 and intercept 8.0, but the end-to-end pipeline computes
ECS = 3.0/2.0/2 = 0.75, because the anomaly fit has intercept
8.0 − 5.0 = 3.0 after the control-imbalance baseline is subtracted. -/
theorem synthetic_pipeline_ecs_eq_three_quarters :
    polyfit1 (pySlice 100 150 synAbruptGmst) (pySlice 100 150 synAbruptImbalance)
        = (-2, 8) ∧
      synResult.ECS = some (gregoryECS (-2) 3) ∧ gregoryECS (-2) 3 = 3 / 4 := by
  refine ⟨?_, ?_, by norm_num [gregoryECS]⟩
  · rw [syn_raw_affine, pySlice_map]
    have h100 : (4 * ((100 : ℕ) : ℚ) / 149) ∈ pySlice 100 150 synAbruptGmst := by
      rw [synAbruptGmst, pySlice_map]
      exact List.mem_map_of_mem _ syn_window_mem.1
    have h101 : (4 * ((101 : ℕ) : ℚ) / 149) ∈ pySlice 100 150 synAbruptGmst := by
      rw [synAbruptGmst, pySlice_map]
      exact List.mem_map_of_mem _ syn_window_mem.2
    refine polyfit1_affine (-2) 8 h100 h101 ?_
    push_cast
    norm_num
  · rw [syn_ecs]
    norm_num [gregoryECS]

/-- Identifier of one run in the notebook's composite dataset keys
(`name.split(".")[2]` extracts the model; the experiment component is what the
substring tests `'piControl' in name` / `'abrupt-4xCO2' in name` detect, the
experiment id being the only component of the catalog's composite key in which
those strings occur). -/
structure RunName where
  model : String
  experiment : String
deriving DecidableEq

/-- The `piControl` experiment identifier. -/
def ctrlExp : String := "piControl"

/-- The `abrupt-4xCO2` experiment identifier. -/
def abruptExp : String := "abrupt-4xCO2"

/-- Lookup in a Python dict modelled as an association list. -/
def dlookup {β : Type} (k : String) : List (String × β) → Option β
  | [] => none
  | p :: rest => if k = p.1 then some p.2 else dlookup k rest

/-- Insertion into a Python dict: an existing key is overwritten in place
(keeping its insertion position), a new key is appended. -/
def dinsert {β : Type} (k : String) (v : β) : List (String × β) → List (String × β)
  | [] => [(k, v)]
  | p :: rest => if k = p.1 then (k, v) :: rest else p :: dinsert k v rest

/-- One filtering pass of the splitting cell: walk the runs in order and, when
the selector accepts a run, insert it into the dict being built under its
model name. -/
def buildDict {α β : Type} (sel : α → Option (String × β)) :
    List α → List (String × β) → List (String × β)
  | [], d => d
  | r :: rest, d =>
    buildDict sel rest (match sel r with | some (k, v) => dinsert k v d | none => d)

/-- First filtering pass of the splitting cell: every `piControl` run, keyed
by model name. Each run carries its (GMST series, imbalance series) pair,
since the notebook populates `gmst_dict` and `imbalance_dict` together under
the same keys. -/
def ctrlDict1 (runs : List (RunName × (List ℚ × List ℚ))) :
    List (String × (List ℚ × List ℚ)) :=
  buildDict
    (fun r => if r.1.experiment = ctrlExp then some (r.1.model, r.2) else none) runs []

/-- Second filtering pass: every `abrupt-4xCO2` run whose model also appears
in the first control dict. -/
def abruptDict (runs : List (RunName × (List ℚ × List ℚ))) :
    List (String × (List ℚ × List ℚ)) :=
  buildDict
    (fun r => if r.1.experiment = abruptExp ∧ (dlookup r.1.model (ctrlDict1 runs)).isSome
      then some (r.1.model, r.2) else none) runs []

/-- Third filtering pass: the control dict rebuilt keeping only models present
in the abrupt dict. -/
def ctrlDict (runs : List (RunName × (List ℚ × List ℚ))) :
    List (String × (List ℚ × List ℚ)) :=
  buildDict
    (fun r => if r.1.experiment = ctrlExp ∧ (dlookup r.1.model (abruptDict runs)).isSome
      then some (r.1.model, r.2) else none) runs []

/-- The three filtering passes of the splitting cell together:
`(ctrl dict, abrupt dict)`. -/
def splitDicts (runs : List (RunName × (List ℚ × List ℚ))) :
    List (String × (List ℚ × List ℚ)) × List (String × (List ℚ × List ℚ)) :=
  (ctrlDict runs, abruptDict runs)

/-- The batch loop of the notebook (`for name in tqdm(ctrl_gmst_dict.keys())`):
for each model of the control dict, look up its abrupt-run series (a missing
key would be an uncaught Python `KeyError`, modelled by `Except.error`), run
the per-model pipeline, and record the ECS when the length guard admitted it. -/
def ecsLoop (g0 g1 : ℕ) (abruptD : List (String × (List ℚ × List ℚ))) :
    List (String × (List ℚ × List ℚ)) → List (String × ℚ) →
      Except String (List (String × ℚ))
  | [], acc => Except.ok acc
  | p :: rest, acc =>
    (dlookup p.1 abruptD).elim (Except.error p.1) (fun s =>
      ((processModel g0 g1 ⟨p.2.1, p.2.2, s.1, s.2⟩).ECS).elim
        (ecsLoop g0 g1 abruptD rest acc)
        (fun e => ecsLoop g0 g1 abruptD rest (dinsert p.1 e acc)))

/-- End-to-end batch orchestration: split the run collection into control and
abrupt dicts, then run the per-model loop, producing the `results['ECS']`
mapping. -/
def computeAll (g0 g1 : ℕ) (runs : List (RunName × (List ℚ × List ℚ))) :
    Except String (List (String × ℚ)) :=
  ecsLoop g0 g1 (splitDicts runs).2 (splitDicts runs).1 []

/-- The collection contains a run of experiment `e` for model `k`. -/
def hasRun (e k : String) (runs : List (RunName × (List ℚ × List ℚ))) : Prop :=
  ∃ s, (RunName.mk k e, s) ∈ runs

lemma dlookup_dinsert {β : Type} (k k' : String) (v : β) (d : List (String × β)) :
    dlookup k (dinsert k' v d) = if k = k' then some v else dlookup k d := by
  induction d with
  | nil =>
    simp [dinsert, dlookup]
  | cons p rest ih =>
    by_cases h1 : k' = p.1
    · rw [dinsert, if_pos h1, dlookup]
      by_cases h2 : k = k'
      · simp [h2]
      · simp only [h2, if_false]
        rw [dlookup, if_neg (h1 ▸ h2)]
    · rw [dinsert, if_neg h1, dlookup]
      by_cases h2 : k = p.1
      · rw [if_pos h2, dlookup, if_pos h2, if_neg (by rw [h2]; exact fun hh => h1 hh.symm)]
      · rw [if_neg h2, dlookup, if_neg h2, ih]

lemma dlookup_isSome_iff {β : Type} (k : String) (d : List (String × β)) :
    (dlookup k d).isSome ↔ ∃ v, (k, v) ∈ d := by
  induction d with
  | nil => simp [dlookup]
  | cons p rest ih =>
    rw [dlookup]
    by_cases h : k = p.1
    · rw [if_pos h]
      simp only [Option.isSome_some, true_iff]
      exact ⟨p.2, by rw [h]; exact List.mem_cons_self _ _⟩
    · rw [if_neg h, ih]
      constructor
      · rintro ⟨v, hv⟩
        exact ⟨v, List.mem_cons_of_mem _ hv⟩
      · rintro ⟨v, hv⟩
        rcases List.mem_cons.mp hv with heq | hmem
        · exact absurd (congrArg Prod.fst heq) h
        · exact ⟨v, hmem⟩

lemma mem_dinsert {β : Type} {k v} {k' : String} {v' : β} {d : List (String × β)}
    (h : (k, v) ∈ dinsert k' v' d) : (k = k' ∧ v = v') ∨ (k, v) ∈ d := by
  induction d with
  | nil =>
    rw [dinsert] at h
    rcases List.mem_cons.mp h with heq | hmem
    · exact Or.inl ⟨congrArg Prod.fst heq, congrArg Prod.snd heq⟩
    · cases hmem
  | cons p rest ih =>
    rw [dinsert] at h
    by_cases h1 : k' = p.1
    · rw [if_pos h1] at h
      rcases List.mem_cons.mp h with heq | hmem
      · exact Or.inl ⟨congrArg Prod.fst heq, congrArg Prod.snd heq⟩
      · exact Or.inr (List.mem_cons_of_mem _ hmem)
    · rw [if_neg h1] at h
      rcases List.mem_cons.mp h with heq | hmem
      · exact Or.inr (heq ▸ List.mem_cons_self _ _)
      · rcases ih hmem with hl | hr
        · exact Or.inl hl
        · exact Or.inr (List.mem_cons_of_mem _ hr)

lemma buildDict_lookup_isSome {α β : Type} (sel : α → Option (String × β))
    (rs : List α) (d : List (String × β)) (k : String) :
    (dlookup k (buildDict sel rs d)).isSome
      ↔ (dlookup k d).isSome ∨ ∃ r ∈ rs, ∃ v, sel r = some (k, v) := by
  induction rs generalizing d with
  | nil => simp [buildDict]
  | cons r rest ih =>
    rw [buildDict, ih]
    cases hsel : sel r with
    | none =>
      simp only [List.mem_cons]
      constructor
      · rintro (hd | hrest)
        · exact Or.inl hd
        · exact Or.inr (by obtain ⟨r', hr', hv⟩ := hrest; exact ⟨r', Or.inr hr', hv⟩)
      · rintro (hd | ⟨r', hr' | hr', hv⟩)
        · exact Or.inl hd
        · subst hr'
          obtain ⟨v, hv⟩ := hv
          rw [hsel] at hv
          cases hv
        · exact Or.inr ⟨r', hr', hv⟩
    | some p =>
      obtain ⟨k', v'⟩ := p
      simp only [List.mem_cons]
      rw [dlookup_dinsert]
      by_cases hk : k = k'
      · subst hk
        rw [if_pos rfl]
        simp only [Option.isSome_some]
        constructor
        · intro _
          exact Or.inr ⟨r, Or.inl rfl, v', hsel⟩
        · intro _
          exact Or.inl trivial
      · rw [if_neg hk]
        constructor
        · rintro (hd | hrest)
          · exact Or.inl hd
          · exact Or.inr (by obtain ⟨r', hr', hv⟩ := hrest; exact ⟨r', Or.inr hr', hv⟩)
        · rintro (hd | ⟨r', hr' | hr', hv⟩)
          · exact Or.inl hd
          · subst hr'
            obtain ⟨v, hv⟩ := hv
            rw [hsel] at hv
            exact absurd (congrArg (fun o => Option.map Prod.fst o) hv)
              (by simpa using fun hh => hk hh.symm)
          · exact Or.inr ⟨r', hr', hv⟩

lemma buildDict_mem {α β : Type} (sel : α → Option (String × β))
    (rs : List α) (d : List (String × β)) {k : String} {v : β}
    (h : (k, v) ∈ buildDict sel rs d) :
    (k, v) ∈ d ∨ ∃ r ∈ rs, ∃ v', sel r = some (k, v') := by
  induction rs generalizing d with
  | nil => exact Or.inl h
  | cons r rest ih =>
    rw [buildDict] at h
    rcases ih _ h with hd | hrest
    · cases hsel : sel r with
      | none =>
        rw [hsel] at hd
        exact Or.inl hd
      | some p =>
        obtain ⟨k', v'⟩ := p
        rw [hsel] at hd
        rcases mem_dinsert hd with ⟨hk, hv⟩ | hmem
        · exact Or.inr ⟨r, List.mem_cons_self _ _, v', by rw [hsel, hk]⟩
        · exact Or.inl hmem
    · obtain ⟨r', hr', hv⟩ := hrest
      exact Or.inr ⟨r', List.mem_cons_of_mem _ hr', hv⟩

lemma processModel_ECS_isSome (g0 g1 : ℕ) (d : ModelData) :
    (processModel g0 g1 d).ECS.isSome = true ↔ g1 ≤ d.abrupt_imbalance.length := by
  by_cases h : g1 ≤ (anomaly g0 g1 d.abrupt_imbalance d.ctrl_imbalance).length
  · rw [processModel]
    simp only [if_pos h, Option.isSome_some, true_iff]
    simpa [anomaly] using h
  · rw [processModel]
    simp only [if_neg h, Option.isSome_none]
    simp only [anomaly, List.length_map] at h
    simpa using h

lemma ecsLoop_ok (g0 g1 : ℕ) (abruptD : List (String × (List ℚ × List ℚ)))
    (ctrlL : List (String × (List ℚ × List ℚ))) (acc : List (String × ℚ))
    (hall : ∀ p ∈ ctrlL, (dlookup p.1 abruptD).isSome = true) :
    ∃ m, ecsLoop g0 g1 abruptD ctrlL acc = Except.ok m ∧
      ∀ k, (dlookup k m).isSome = true ↔
        ((dlookup k acc).isSome = true ∨
          ∃ p ∈ ctrlL, p.1 = k ∧
            ∃ s, dlookup k abruptD = some s ∧ g1 ≤ s.2.length) := by
  induction ctrlL generalizing acc with
  | nil =>
    exact ⟨acc, rfl, fun k => by simp [ecsLoop]⟩
  | cons p rest ih =>
    have hp := hall p (List.mem_cons_self _ _)
    obtain ⟨s, hs⟩ := Option.isSome_iff_exists.mp hp
    have hrest : ∀ q ∈ rest, (dlookup q.1 abruptD).isSome = true :=
      fun q hq => hall q (List.mem_cons_of_mem _ hq)
    rw [ecsLoop, hs]
    simp only [Option.elim_some]
    cases heq : (processModel g0 g1 ⟨p.2.1, p.2.2, s.1, s.2⟩).ECS with
    | some e =>
      have hlen : g1 ≤ s.2.length := by
        have := (processModel_ECS_isSome g0 g1 ⟨p.2.1, p.2.2, s.1, s.2⟩).mp
          (by rw [heq]; rfl)
        exact this
      obtain ⟨m, hm, hiff⟩ := ih (dinsert p.1 e acc) hrest
      refine ⟨m, ?_, fun k => ?_⟩
      · exact hm
      rw [hiff k, dlookup_dinsert]
      simp only [List.mem_cons, exists_eq_or_imp]
      by_cases hk : k = p.1
      · rw [if_pos hk]
        simp only [Option.isSome_some]
        constructor
        · intro _
          exact Or.inr (Or.inl ⟨hk.symm, s, hk ▸ hs, hlen⟩)
        · intro _
          exact Or.inl trivial
      · rw [if_neg hk]
        constructor
        · rintro (ha | hr)
          · exact Or.inl ha
          · exact Or.inr (Or.inr hr)
        · rintro (ha | ⟨hpk, _⟩ | hr)
          · exact Or.inl ha
          · exact absurd hpk.symm hk
          · exact Or.inr hr
    | none =>
      have hlen : ¬ g1 ≤ s.2.length := by
        intro hle
        have := (processModel_ECS_isSome g0 g1 ⟨p.2.1, p.2.2, s.1, s.2⟩).mpr hle
        rw [heq] at this
        cases this
      obtain ⟨m, hm, hiff⟩ := ih acc hrest
      refine ⟨m, ?_, fun k => ?_⟩
      · exact hm
      rw [hiff k]
      simp only [List.mem_cons, exists_eq_or_imp]
      constructor
      · rintro (ha | hr)
        · exact Or.inl ha
        · exact Or.inr (Or.inr hr)
      · rintro (ha | ⟨hpk, s', hs', hlen'⟩ | hr)
        · exact Or.inl ha
        · rw [← hpk, hs] at hs'
          cases hs'
          exact absurd hlen' hlen
        · exact Or.inr hr

lemma if_some_eq {β : Type} (P : Prop) [Decidable P] (a k : String) (b v : β) :
    (if P then some (a, b) else none) = some (k, v) ↔ P ∧ a = k ∧ b = v := by
  split_ifs with h
  · simp only [Option.some.injEq, Prod.mk.injEq]
    exact ⟨fun hh => ⟨h, hh⟩, fun hh => hh.2⟩
  · simp only [false_iff]
    rintro ⟨hP, _⟩
    exact h hP

lemma ctrlDict1_isSome (runs : List (RunName × (List ℚ × List ℚ))) (k : String) :
    (dlookup k (ctrlDict1 runs)).isSome = true ↔ hasRun ctrlExp k runs := by
  rw [ctrlDict1, buildDict_lookup_isSome]
  simp only [dlookup, Option.isSome_none, Bool.false_eq_true, false_or]
  constructor
  · rintro ⟨⟨⟨mdl, ex⟩, s⟩, hmem, v, hv⟩
    rw [if_some_eq] at hv
    obtain ⟨hP, hak, hbv⟩ := hv
    dsimp at hP hak
    subst hP
    subst hak
    exact ⟨s, hmem⟩
  · rintro ⟨s, hmem⟩
    refine ⟨(RunName.mk k ctrlExp, s), hmem, s, ?_⟩
    rw [if_some_eq]
    exact ⟨rfl, rfl, rfl⟩

lemma abruptDict_isSome (runs : List (RunName × (List ℚ × List ℚ))) (k : String) :
    (dlookup k (abruptDict runs)).isSome = true ↔
      hasRun abruptExp k runs ∧ hasRun ctrlExp k runs := by
  rw [abruptDict, buildDict_lookup_isSome]
  simp only [dlookup, Option.isSome_none, Bool.false_eq_true, false_or]
  constructor
  · rintro ⟨⟨⟨mdl, ex⟩, s⟩, hmem, v, hv⟩
    rw [if_some_eq] at hv
    obtain ⟨⟨hP, hctrl⟩, hak, hbv⟩ := hv
    dsimp at hP hak hctrl
    subst hP
    subst hak
    exact ⟨⟨s, hmem⟩, (ctrlDict1_isSome runs _).mp hctrl⟩
  · rintro ⟨⟨s, hmem⟩, hctrl⟩
    refine ⟨(RunName.mk k abruptExp, s), hmem, s, ?_⟩
    rw [if_some_eq]
    exact ⟨⟨rfl, (ctrlDict1_isSome runs k).mpr hctrl⟩, rfl, rfl⟩

lemma ctrlDict_isSome (runs : List (RunName × (List ℚ × List ℚ))) (k : String) :
    (dlookup k (ctrlDict runs)).isSome = true ↔
      hasRun ctrlExp k runs ∧ (dlookup k (abruptDict runs)).isSome = true := by
  rw [ctrlDict, buildDict_lookup_isSome]
  simp only [dlookup, Option.isSome_none, Bool.false_eq_true, false_or]
  constructor
  · rintro ⟨⟨⟨mdl, ex⟩, s⟩, hmem, v, hv⟩
    rw [if_some_eq] at hv
    obtain ⟨⟨hP, habrupt⟩, hak, hbv⟩ := hv
    dsimp at hP hak habrupt
    subst hP
    subst hak
    exact ⟨⟨s, hmem⟩, habrupt⟩
  · rintro ⟨⟨s, hmem⟩, habrupt⟩
    refine ⟨(RunName.mk k ctrlExp, s), hmem, s, ?_⟩
    rw [if_some_eq]
    exact ⟨⟨rfl, habrupt⟩, rfl, rfl⟩

lemma ctrlDict_entries_have_abrupt (runs : List (RunName × (List ℚ × List ℚ)))
    {p : String × (List ℚ × List ℚ)} (hp : p ∈ ctrlDict runs) :
    (dlookup p.1 (abruptDict runs)).isSome = true := by
  obtain ⟨k, v⟩ := p
  rcases buildDict_mem _ _ _ hp with hnil | ⟨r, _, v', hv⟩
  · cases hnil
  · rw [if_some_eq] at hv
    obtain ⟨⟨_, habrupt⟩, hak, _⟩ := hv
    exact hak ▸ habrupt

/-- C5: for every window and run collection, the batch completes without an
uncaught failure, and a model name appears in the final `results['ECS']`
mapping exactly when the collection has both a `piControl` and an
`abrupt-4xCO2` run for that model and the abrupt-run imbalance series the
pipeline uses has at least as many time steps as the window's upper bound;
every other model is skipped without aborting the remaining models. -/
theorem ecs_result_membership (g0 g1 : ℕ) (runs : List (RunName × (List ℚ × List ℚ))) :
    ∃ m, computeAll g0 g1 runs = Except.ok m ∧
      ∀ name : String,
        (dlookup name m).isSome = true ↔
          (hasRun ctrlExp name runs ∧ hasRun abruptExp name runs ∧
            ∃ s, dlookup name (abruptDict runs) = some s ∧ g1 ≤ s.2.length) := by
  obtain ⟨m, hm, hiff⟩ := ecsLoop_ok g0 g1 (abruptDict runs) (ctrlDict runs) []
    (fun p hp => ctrlDict_entries_have_abrupt runs hp)
  refine ⟨m, hm, fun name => ?_⟩
  rw [hiff name]
  simp only [dlookup, Option.isSome_none, Bool.false_eq_true, false_or]
  constructor
  · rintro ⟨p, hp, hpk, s, hs, hlen⟩
    have hC : (dlookup name (ctrlDict runs)).isSome = true :=
      (dlookup_isSome_iff name _).mpr ⟨p.2, by rw [← hpk]; exact hp⟩
    obtain ⟨hctrl, habrupt⟩ := (ctrlDict_isSome runs name).mp hC
    exact ⟨hctrl, ((abruptDict_isSome runs name).mp habrupt).1, s, hs, hlen⟩
  · rintro ⟨hctrl, hab, s, hs, hlen⟩
    have habS : (dlookup name (abruptDict runs)).isSome = true := by
      rw [hs]; rfl
    have hC : (dlookup name (ctrlDict runs)).isSome = true :=
      (ctrlDict_isSome runs name).mpr ⟨hctrl, habS⟩
    obtain ⟨v, hv⟩ := (dlookup_isSome_iff name _).mp hC
    exact ⟨(name, v), hv, rfl, s, hs, hlen⟩

/-- Which of the three radiative flux variables a radiation dataset carries
(the keys tested by `('rsdt' in ...) & ('rsut' in ...) & ('rlut' in ...)`). -/
structure RadDataset where
  hasRsdt : Bool
  hasRsut : Bool
  hasRlut : Bool
deriving DecidableEq

/-- The up-front flux presence test of the loading loop. -/
def fluxesPresent (r : RadDataset) : Bool := r.hasRsdt && r.hasRsut && r.hasRlut

/-- Control flow of the loading loop (`for name, ds_rad in dset_dict_rad`): a
run missing any flux variable is skipped by `continue` before anything else;
otherwise `ds_tas = dset_dict_tas[name]` is executed, an unguarded lookup that
raises `KeyError` (modelled as `Except.error`) when the temperature dict has no
entry for the run, aborting the whole loop; otherwise the run's global means
are computed (we record the run names that reach that computation, in order). -/
def loadLoop (tasKeys : List RunName) : List (RunName × RadDataset) → Except RunName (List RunName)
  | [] => Except.ok []
  | p :: rest =>
    if fluxesPresent p.2 then
      if p.1 ∈ tasKeys then
        (loadLoop tasKeys rest).map (fun processed => p.1 :: processed)
      else Except.error p.1
    else loadLoop tasKeys rest

/-- A radiation dataset with all three flux variables present. -/
def radFull : RadDataset := ⟨true, true, true⟩

/-- A concrete run identifier used in counterexamples. -/
def runA : RunName := ⟨"ModelA", "piControl"⟩

/-- Another concrete run identifier used in counterexamples. -/
def runB : RunName := ⟨"ModelB", "piControl"⟩

/-- C6 counterexample: a run with all three flux variables but no entry in the
temperature dict is not skipped — the unguarded `dset_dict_tas[name]` lookup
raises, aborting the batch, so the later run `runB` (which has both) is never
processed, contradicting the claim that a missing temperature field is
skipped before the imbalance computation with the loop continuing. -/
theorem missing_tas_aborts_batch :
    loadLoop [runB] [(runA, radFull), (runB, radFull)] = Except.error runA := by
  rfl

/-- C6 amended: a run missing any of the three flux components is skipped up
front (before the temperature lookup and the imbalance computation) and the
loop continues with the other runs; and provided every flux-complete run has a
temperature dataset, the loop completes without failure, processing exactly
the flux-complete runs in order. A flux-complete run with no temperature
entry instead raises an uncaught lookup error (see the counterexample). -/
theorem flux_presence_checked_up_front :
    (∀ (tasKeys : List RunName) (rads : List (RunName × RadDataset)),
      (∀ p ∈ rads, fluxesPresent p.2 = true → p.1 ∈ tasKeys) →
      loadLoop tasKeys rads
        = Except.ok ((rads.filter (fun p => fluxesPresent p.2)).map Prod.fst)) ∧
    (∀ (tasKeys : List RunName) (nm : RunName) (rad : RadDataset)
        (rads : List (RunName × RadDataset)), fluxesPresent rad = false →
      loadLoop tasKeys ((nm, rad) :: rads) = loadLoop tasKeys rads) := by
  constructor
  · intro tasKeys rads hall
    induction rads with
    | nil => rfl
    | cons p rest ih =>
      have hrest : ∀ q ∈ rest, fluxesPresent q.2 = true → q.1 ∈ tasKeys :=
        fun q hq => hall q (List.mem_cons_of_mem _ hq)
      rw [loadLoop]
      by_cases hf : fluxesPresent p.2
      · rw [if_pos hf, if_pos (hall p (List.mem_cons_self _ _) hf), ih hrest]
        simp [List.filter_cons, hf, Except.map]
      · rw [if_neg hf, ih hrest]
        simp [List.filter_cons, hf]
  · intro tasKeys nm rad rads hf
    rw [loadLoop, if_neg (by simp [hf])]

/-- Witness for the amended C6: a flux-incomplete run is skipped and the
flux-complete runs are processed in order. -/
theorem flux_presence_checked_up_front_witness :
    loadLoop [runA, runB] [(runA, radFull), (runB, ⟨true, false, true⟩), (runB, radFull)]
      = Except.ok [runA, runB] := by
  have h := flux_presence_checked_up_front.1 [runA, runB]
    [(runA, radFull), (runB, ⟨true, false, true⟩), (runB, radFull)] (by decide)
  exact h.trans (by rfl)

/-- Model of an IEEE-754 double value as produced by the numpy expression
`b/(-a) / 2.0`: a finite value (held exactly as a rational; rounding of
finite arithmetic is not modelled), a signed infinity, or NaN. -/
inductive FloatVal where
  | finite : ℚ → FloatVal
  | posInf : FloatVal
  | negInf : FloatVal
  | nan : FloatVal
deriving DecidableEq

/-- Whether a float value is finite. -/
def FloatVal.isFinite : FloatVal → Bool
  | .finite _ => true
  | _ => false

/-- The numpy float64 evaluation of `results['ECS'][name] = b/(-a) / 2.0` for
exactly-known `a`, `b`. For `a ≠ 0` the value is the exact rational. For
`a = 0` (the value `np.polyfit` returns for, e.g., constant imbalance over the
window) IEEE-754 semantics apply, which numpy follows without raising: `-a` is
the negative zero, `b/(-0.0)` is `-inf` for `b > 0`, `+inf` for `b < 0`, and
NaN for `b = 0`, and halving preserves each of these. -/
def ecsFloat (a b : ℚ) : FloatVal :=
  if a = 0 then
    if 0 < b then FloatVal.negInf else if b < 0 then FloatVal.posInf else FloatVal.nan
  else FloatVal.finite (gregoryECS a b)

/-- C2: whenever the fitted slope is exactly zero, the ECS derivation
`b/(-a)/2.0` evaluates, under the float semantics of the numpy scalars
involved, to an explicit non-finite value (an infinity or NaN) — not a silent
zero, not a coerced finite value, and not an exception. -/
theorem slope_zero_ecs_nonfinite (a b : ℚ) (ha : a = 0) :
    (ecsFloat a b).isFinite = false ∧
      (ecsFloat a b = FloatVal.negInf ∨ ecsFloat a b = FloatVal.posInf ∨
        ecsFloat a b = FloatVal.nan) := by
  subst ha
  rw [ecsFloat, if_pos rfl]
  by_cases h1 : 0 < b
  · rw [if_pos h1]
    exact ⟨rfl, Or.inl rfl⟩
  · rw [if_neg h1]
    by_cases h2 : b < 0
    · rw [if_pos h2]
      exact ⟨rfl, Or.inr (Or.inl rfl)⟩
    · rw [if_neg h2]
      exact ⟨rfl, Or.inr (Or.inr rfl)⟩

/-- Witness for C2 at slope 0 and intercept 8. -/
theorem slope_zero_ecs_nonfinite_witness :
    (ecsFloat 0 8).isFinite = false ∧
      (ecsFloat 0 8 = FloatVal.negInf ∨ ecsFloat 0 8 = FloatVal.posInf ∨
        ecsFloat 0 8 = FloatVal.nan) :=
  slope_zero_ecs_nonfinite 0 8 rfl

/-- The effective area weights of the notebook,
`cos_lat_2d = np.cos(np.deg2rad(ds['lat'])) * xr.ones_like(ds['lon'])`: a
latitude-only weight broadcast uniformly across longitude. The per-latitude
weight `w i` stands for `cos(π·φ_i/180)` at the grid latitudes `φ_i`; the
claims quantify over the weighting, so it is kept abstract. -/
def cosLat2d (nlat nlon : ℕ) (w : Fin nlat → ℚ) : Fin nlat → Fin nlon → ℚ :=
  fun i _ => w i

/-- Area-weighted global mean of one time step of a gridded field,
`(field * cos_lat_2d).sum(dim=['lat','lon']) / cos_lat_2d.sum(dim=['lat','lon'])`. -/
def areaWeightedMean (nlat nlon : ℕ) (w : Fin nlat → ℚ)
    (f : Fin nlat → Fin nlon → ℚ) : ℚ :=
  (∑ i, ∑ j, f i j * cosLat2d nlat nlon w i j) /
    (∑ i, ∑ j, cosLat2d nlat nlon w i j)

/-- The GMST series: the area-weighted mean of the temperature field at each
time step. -/
def gmstAt (nlat nlon : ℕ) (w : Fin nlat → ℚ)
    (field : ℕ → Fin nlat → Fin nlon → ℚ) (t : ℕ) : ℚ :=
  areaWeightedMean nlat nlon w (field t)

/-- The pointwise net top-of-atmosphere flux,
`net_toa = ds_rad['rsdt'] - ds_rad['rsut'] - ds_rad['rlut']`. -/
def netTOA (nlat nlon : ℕ) (rsdt rsut rlut : ℕ → Fin nlat → Fin nlon → ℚ) :
    ℕ → Fin nlat → Fin nlon → ℚ :=
  fun t i j => rsdt t i j - rsut t i j - rlut t i j

/-- The imbalance series computed by the notebook: combine the three flux
fields pointwise first, then reduce with the area-weighted mean. -/
def imbalanceAt (nlat nlon : ℕ) (w : Fin nlat → ℚ)
    (rsdt rsut rlut : ℕ → Fin nlat → Fin nlon → ℚ) (t : ℕ) : ℚ :=
  areaWeightedMean nlat nlon w (netTOA nlat nlon rsdt rsut rlut t)

/-- C7: if the field is the constant `v` over the whole grid at a time step,
and the total cosine weight is nonzero, then the area-weighted global mean at
that time step is exactly `v`, regardless of the latitude weighting. -/
theorem constant_field_weighted_mean (nlat nlon : ℕ) (w : Fin nlat → ℚ)
    (field : ℕ → Fin nlat → Fin nlon → ℚ) (t : ℕ) (v : ℚ)
    (hconst : ∀ i j, field t i j = v)
    (hw : (∑ i, ∑ j, cosLat2d nlat nlon w i j) ≠ 0) :
    gmstAt nlat nlon w field t = v := by
  rw [gmstAt, areaWeightedMean]
  have hnum : (∑ i, ∑ j, field t i j * cosLat2d nlat nlon w i j)
      = v * ∑ i, ∑ j, cosLat2d nlat nlon w i j := by
    rw [Finset.mul_sum]
    refine Finset.sum_congr rfl fun i _ => ?_
    rw [Finset.mul_sum]
    exact Finset.sum_congr rfl fun j _ => by rw [hconst i j]
  rw [hnum, mul_div_assoc, div_self hw, mul_one]

/-- Witness for C7: a constant field of value 7 on a 2-latitude, 1-longitude
grid with unequal weights has global mean exactly 7. -/
theorem constant_field_weighted_mean_witness :
    gmstAt 2 1 ![1, 2] (fun _ _ _ => (7 : ℚ)) 0 = 7 :=
  constant_field_weighted_mean 2 1 ![1, 2] (fun _ _ _ => (7 : ℚ)) 0 7
    (fun _ _ => rfl)
    (by norm_num [cosLat2d, Fin.sum_univ_two, Fin.sum_univ_one,
      Matrix.cons_val_zero, Matrix.cons_val_one, Matrix.head_cons])

/-- C8: combining the three flux fields pointwise and then taking the
area-weighted mean gives the same imbalance series as taking the three
area-weighted means independently and then combining them. -/
theorem imbalance_combine_commutes (nlat nlon : ℕ) (w : Fin nlat → ℚ)
    (rsdt rsut rlut : ℕ → Fin nlat → Fin nlon → ℚ) (t : ℕ) :
    imbalanceAt nlat nlon w rsdt rsut rlut t
      = gmstAt nlat nlon w rsdt t - gmstAt nlat nlon w rsut t
        - gmstAt nlat nlon w rlut t := by
  rw [imbalanceAt, areaWeightedMean, gmstAt, gmstAt, gmstAt,
    areaWeightedMean, areaWeightedMean, areaWeightedMean]
  have hnum : (∑ i, ∑ j, netTOA nlat nlon rsdt rsut rlut t i j * cosLat2d nlat nlon w i j)
      = (∑ i, ∑ j, rsdt t i j * cosLat2d nlat nlon w i j)
        - (∑ i, ∑ j, rsut t i j * cosLat2d nlat nlon w i j)
        - (∑ i, ∑ j, rlut t i j * cosLat2d nlat nlon w i j) := by
    rw [← Finset.sum_sub_distrib, ← Finset.sum_sub_distrib]
    refine Finset.sum_congr rfl fun i _ => ?_
    rw [← Finset.sum_sub_distrib, ← Finset.sum_sub_distrib]
    refine Finset.sum_congr rfl fun j _ => ?_
    rw [netTOA]
    ring
  rw [hnum, sub_div, sub_div]

/-- Comparison key of the presentation sort,
`sorted(results['ECS'].items(), key=lambda x: x[1])`: compare entries by their
ECS value only. -/
def valLe (p q : String × ℚ) : Prop := p.2 ≤ q.2

instance valLe_dec : DecidableRel valLe :=
  fun p q => inferInstanceAs (Decidable (p.2 ≤ q.2))

/-- The presentation sort of the final ECS mapping: Python's `sorted` is an
ascending stable sort, modelled by insertion sort on the value-only key. -/
def ordered_ECS (ecs : List (String × ℚ)) : List (String × ℚ) :=
  List.insertionSort valLe ecs

lemma filter_orderedInsert (v : ℚ) (a : String × ℚ) (l : List (String × ℚ)) :
    (List.orderedInsert valLe a l).filter (fun p => decide (p.2 = v))
      = ((a :: l).filter (fun p => decide (p.2 = v))) := by
  induction l with
  | nil => rfl
  | cons b t ih =>
    rw [List.orderedInsert]
    by_cases hab : valLe a b
    · rw [if_pos hab]
    · rw [if_neg hab]
      have hlt : b.2 < a.2 := not_le.mp hab
      simp only [List.filter_cons, ih]
      by_cases ha : a.2 = v
      · by_cases hb : b.2 = v
        · exact absurd (hb.trans ha.symm) (ne_of_lt hlt)
        · simp [ha, hb]
      · by_cases hb : b.2 = v
        · simp [ha, hb]
        · simp [ha, hb]

lemma filter_insertionSort (v : ℚ) (l : List (String × ℚ)) :
    (List.insertionSort valLe l).filter (fun p => decide (p.2 = v))
      = l.filter (fun p => decide (p.2 = v)) := by
  induction l with
  | nil => rfl
  | cons a t ih =>
    rw [List.insertionSort, filter_orderedInsert]
    simp only [List.filter_cons, ih]

/-- C9: the presentation sort is a permutation of the ECS mapping ordered by
ascending numeric ECS value with ties broken by insertion order (stability:
for each value, the entries carrying that value keep their original relative
order); in particular `{A: 3.2, B: 1.1, C: 3.2}` sorts to `B, A, C`. -/
theorem ordered_ecs_sorted_stable :
    (∀ l : List (String × ℚ), List.Perm (ordered_ECS l) l) ∧
    (∀ l : List (String × ℚ), List.Sorted valLe (ordered_ECS l)) ∧
    (∀ (l : List (String × ℚ)) (v : ℚ),
      (ordered_ECS l).filter (fun p => decide (p.2 = v))
        = l.filter (fun p => decide (p.2 = v))) ∧
    ordered_ECS [("A", 3.2), ("B", 1.1), ("C", 3.2)]
      = [("B", 1.1), ("A", 3.2), ("C", 3.2)] := by
  refine ⟨fun l => List.perm_insertionSort valLe l, fun l => ?_,
    fun l v => filter_insertionSort v l, ?_⟩
  · haveI : IsTotal (String × ℚ) valLe := ⟨fun a b => le_total a.2 b.2⟩
    haveI : IsTrans (String × ℚ) valLe := ⟨fun a b c hab hbc => le_trans hab hbc⟩
    exact List.sorted_insertionSort valLe l
  · norm_num [ordered_ECS, List.insertionSort, List.orderedInsert, valLe]

/-- The renaming mapping of the loading loop,
`{'longitude': 'lon', 'latitude': 'lat'}`. -/
def renameMap : List (String × String) := [("longitude", "lon"), ("latitude", "lat")]

/-- Model of `xarray.Dataset.rename` acting on a dataset's dimension names:
every key of the mapping must name an existing dimension, otherwise the call
raises `ValueError` (`cannot rename ... because it is not a variable or
dimension in this dataset`); on success each dimension is replaced by its
image under the mapping. -/
def xrRename (m : List (String × String)) (dims : List String) :
    Except String (List String) :=
  if (∀ kv ∈ m, kv.1 ∈ dims) then
    Except.ok (dims.map (fun d => ((dlookup d m).getD d)))
  else Except.error ("ValueError")

/-- The conditional renaming block of the loading loop: when — and only
when — the radiation dataset has dimensions named `longitude` and `latitude`,
rename both the radiation and the temperature datasets with the same mapping;
the temperature dataset's own dimension names are never examined. -/
def renameStep (radDims tasDims : List String) :
    Except String (List String × List String) :=
  if ("longitude" ∈ radDims ∧ "latitude" ∈ radDims) then
    (xrRename renameMap radDims).bind (fun r =>
      (xrRename renameMap tasDims).map (fun t => (r, t)))
  else Except.ok (radDims, tasDims)

/-- C10 counterexample: when the radiation dataset uses `latitude`/`longitude`
but the temperature dataset uses `lat`/`lon`, the unconditional
`ds_tas.rename({'longitude': 'lon', 'latitude': 'lat'})` raises `ValueError`
(its keys are not dimensions of the temperature dataset), so the temperature
field never reaches spatial averaging at all — it is neither renamed nor
passed through, contradicting the claim. -/
theorem rename_mismatch_raises :
    renameStep ["time", "latitude", "longitude"] ["time", "lat", "lon"]
      = Except.error ("ValueError") := by
  rfl

/-- C10 amended: the temperature rename is attempted if and only if the
radiation dataset has `longitude` and `latitude` dimensions, without examining
the temperature dataset's own dimensions. When the radiation dataset lacks
them, both datasets pass through unchanged — so a temperature grid named
differently reaches spatial averaging unreconciled; when both datasets have
them, both are renamed; but when the radiation dataset has them and the
temperature dataset does not, the rename raises an uncaught `ValueError`
instead of letting the temperature field reach spatial averaging. -/
theorem rename_conditional_amended :
    (∀ radDims tasDims : List String,
      ¬("longitude" ∈ radDims ∧ "latitude" ∈ radDims) →
      renameStep radDims tasDims = Except.ok (radDims, tasDims)) ∧
    (∀ radDims tasDims : List String,
      "longitude" ∈ radDims → "latitude" ∈ radDims →
      "longitude" ∈ tasDims → "latitude" ∈ tasDims →
      renameStep radDims tasDims
        = Except.ok (radDims.map (fun d => ((dlookup d renameMap).getD d)),
            tasDims.map (fun d => ((dlookup d renameMap).getD d)))) ∧
    (∀ radDims tasDims : List String,
      "longitude" ∈ radDims → "latitude" ∈ radDims →
      ¬("longitude" ∈ tasDims ∧ "latitude" ∈ tasDims) →
      renameStep radDims tasDims = Except.error ("ValueError")) := by
  have hmap : ∀ (dims : List String), "longitude" ∈ dims → "latitude" ∈ dims →
      ∀ kv ∈ renameMap, kv.1 ∈ dims := by
    intro dims h1 h2 kv hkv
    rw [renameMap] at hkv
    rcases List.mem_cons.mp hkv with hkv1 | hkv2
    · rw [hkv1]
      exact h1
    · rcases List.mem_cons.mp hkv2 with hkv3 | hkv4
      · rw [hkv3]
        exact h2
      · cases hkv4
  refine ⟨?_, ?_, ?_⟩
  · intro radDims tasDims h
    rw [renameStep, if_neg h]
  · intro radDims tasDims h1 h2 h3 h4
    rw [renameStep, if_pos ⟨h1, h2⟩, xrRename, if_pos (hmap radDims h1 h2)]
    rw [xrRename, if_pos (hmap tasDims h3 h4)]
    rfl
  · intro radDims tasDims h1 h2 hneg
    rw [renameStep, if_pos ⟨h1, h2⟩, xrRename, if_pos (hmap radDims h1 h2)]
    have htas : ¬(∀ kv ∈ renameMap, kv.1 ∈ tasDims) := by
      intro hall
      exact hneg ⟨hall ("longitude", "lon") (by rw [renameMap]; exact List.mem_cons_self _ _),
        hall ("latitude", "lat")
          (by rw [renameMap]; exact List.mem_cons_of_mem _ (List.mem_cons_self _ _))⟩
    rw [xrRename, if_neg htas]
    rfl

/-- Witness for the amended C10: a radiation grid named `lat`/`lon` triggers
no rename, so an unmatched temperature grid passes through unreconciled, and
a matched pair of `latitude`/`longitude` grids is renamed on both sides. -/
theorem rename_conditional_amended_witness :
    renameStep ["time", "lat", "lon"] ["time", "latitude", "longitude"]
      = Except.ok (["time", "lat", "lon"], ["time", "latitude", "longitude"]) ∧
    renameStep ["latitude", "longitude"] ["latitude", "longitude"]
      = Except.ok (["lat", "lon"], ["lat", "lon"]) := by
  constructor
  · exact rename_conditional_amended.1 _ _ (by decide)
  · have h := rename_conditional_amended.2.1 ["latitude", "longitude"]
      ["latitude", "longitude"] (by decide) (by decide) (by decide) (by decide)
    exact h.trans (by rfl)
